import Mathlib

/-!
Verification development for the ChoiceScript Save Manager
(`src/choicescript-save-manager.user.js`).

The userscript's save-record lifecycle engine is shallowly embedded here:

* the codec pair `enc`/`dec` (lines 123-139 of the source), parameterised by
  the external `JSON` and `LZString` collaborators;
* the IndexedDB wrapper `DB` (lines 188-231), modelled as a list of records
  with `dbPut`/`dbDelete`/`dbList`, listing being a stable descending sort by
  timestamp over the records of one game;
* `SaveManager.create`, `SaveManager.quick`, `SaveManager.load` and
  `SaveManager.import` (lines 242-408), modelled as pure state transformers
  over the store, with the host-engine collaborators passed in explicitly.

JavaScript numbers appearing in records are modelled as `Int` (all values the
engine itself writes are integers); JS `null`/`undefined` fields are modelled
as `Option`; a thrown `Error` is modelled as the `Except.error` of a structure
carrying the message and, where the source attaches one, the cause.
-/

namespace CSSave

/-- `QUICK_SLOTS` (source line 64): number of rotating quick-save slots. -/
def QUICK_SLOTS : Nat := 5

/-- `METADATA_FORMAT_VERSION` (source line 65). -/
def METADATA_FORMAT_VERSION : Int := 1

/-- `STATE_PLAIN` (source line 66): codec tag for uncompressed payloads. -/
def STATE_PLAIN : String := "plain"

/-- `STATE_LZ` (source line 67): codec tag for LZ-compressed payloads. -/
def STATE_LZ : String := "lz"

/-- The `meta` object of a stored save record (source lines 320-326). -/
structure Meta where
  name : String
  scene : String
  ts : Int
  quick : Option Int
  fmt : Option Int
deriving DecidableEq

/-- A stored save record (source lines 317-329): IndexedDB keyPath is `id`. -/
structure SaveRec where
  id : String
  game : String
  meta : Meta
  state : String
  enc : String
deriving DecidableEq

/-- The external `JSON` collaborator: `stringify` plus `parse`, where `parse`
returning `none` models a thrown `SyntaxError`. -/
structure JsonLib (α : Type) where
  stringify : α → String
  parse : String → Option α

/-- The external `LZString` collaborator (loaded from a CDN, may be absent);
modelled by its two functions used by the script. -/
structure LZLib where
  compressToBase64 : String → String
  decompressFromBase64 : String → String

/-- The `{state, enc}` pair produced by `enc` (source lines 123-126). -/
structure EncState where
  state : String
  enc : String
deriving DecidableEq

/-- `enc` (source lines 123-126): compress iff the compression setting is on
and `LZString` is defined (`HAS_LZ`, source line 73); tag accordingly. -/
def enc {α : Type} (jl : JsonLib α) (lz : Option LZLib) (compression : Bool)
    (o : α) : EncState :=
  match lz, compression with
  | some l, true => { state := l.compressToBase64 (jl.stringify o), enc := STATE_LZ }
  | some _, false => { state := jl.stringify o, enc := STATE_PLAIN }
  | none, _ => { state := jl.stringify o, enc := STATE_PLAIN }

/-- The `cause` attached to the error `dec` throws (source line 137): either
the inner `Error("LZString unavailable for decompression.")` from line 132, or
the `JSON.parse` failure. -/
inductive DecCause where
  | lzUnavailable
  | jsonFailure
deriving DecidableEq

/-- The error thrown by `dec`: message plus cause (source line 137). -/
structure DecErr where
  message : String
  cause : DecCause
deriving DecidableEq

/-- Message of the wrapper error thrown by `dec` (source line 137). -/
def corruptMsg : String := "Corrupted save data or decode failure."

/-- Message of the inner error thrown when `LZString` is missing
(source line 132). -/
def lzUnavailableMsg : String := "LZString unavailable for decompression."

/-- `dec` (source lines 128-139): dispatch on the `enc` tag; for the `lz` tag
a missing `LZString` throws inside the `try`, so every failure surfaces as the
single wrapper error of line 137 whose `cause` records what went wrong. -/
def dec {α : Type} (jl : JsonLib α) (lz : Option LZLib) (r : EncState) :
    Except DecErr α :=
  if r.enc = STATE_LZ then
    match lz with
    | none => .error { message := corruptMsg, cause := .lzUnavailable }
    | some l =>
      match jl.parse (l.decompressFromBase64 r.state) with
      | none => .error { message := corruptMsg, cause := .jsonFailure }
      | some v => .ok v
  else
    match jl.parse r.state with
    | none => .error { message := corruptMsg, cause := .jsonFailure }
    | some v => .ok v

/-- The message carried by a `dec` failure, `none` on success. -/
def decErrMsg {α : Type} (r : Except DecErr α) : Option String :=
  match r with
  | .error e => some e.message
  | .ok _ => none

/-! ### The store (`DB`, source lines 188-231)

IndexedDB over keyPath `id` is modelled as a `List SaveRec`.  `put` is
insert-or-replace by `id`, `delete` removes by `id`, and `list g` returns the
records of game `g` sorted by descending `meta.ts` (source line 228); the JS
`Array.prototype.sort` is stable, so the sort is modelled by a stable
insertion sort. -/

/-- One step of the stable descending-by-`ts` sort: `r` (encountered earlier)
is inserted before the first element whose `ts` is not greater than its own,
so equal timestamps keep their encounter order. -/
def insDesc (r : SaveRec) : List SaveRec → List SaveRec
  | [] => [r]
  | x :: xs => if r.meta.ts < x.meta.ts then x :: insDesc r xs else r :: x :: xs

/-- Stable sort by descending `meta.ts`, modelling
`(r || []).sort((a, b) => b.meta.ts - a.meta.ts)` (source line 228). -/
def sortDescTs : List SaveRec → List SaveRec
  | [] => []
  | x :: xs => insDesc x (sortDescTs xs)

/-- One step of the stable ascending-by-`ts` sort: `r` (encountered earlier)
is inserted before the first element whose `ts` is not smaller than its own. -/
def insAsc (r : SaveRec) : List SaveRec → List SaveRec
  | [] => [r]
  | x :: xs => if x.meta.ts < r.meta.ts then x :: insAsc r xs else r :: x :: xs

/-- Stable sort by ascending `meta.ts`, modelling
`.sort((a, b) => a.meta.ts - b.meta.ts)` (source line 336). -/
def sortAscTs : List SaveRec → List SaveRec
  | [] => []
  | x :: xs => insAsc x (sortAscTs xs)

/-- `DB.put` (source lines 217-219): insert-or-replace by `id`. -/
def dbPut (r : SaveRec) (store : List SaveRec) : List SaveRec :=
  store.filter (fun x => !decide (x.id = r.id)) ++ [r]

/-- `DB.delete` (source lines 223-225): remove the record with the given key. -/
def dbDelete (id : String) (store : List SaveRec) : List SaveRec :=
  store.filter (fun x => !decide (x.id = id))

/-- `DB.get` (source lines 220-222): point lookup by key. -/
def dbGet (id : String) (store : List SaveRec) : Option SaveRec :=
  store.find? (fun x => decide (x.id = id))

/-- `DB.list` (source lines 226-230): all records of one game, newest first. -/
def dbList (g : String) (store : List SaveRec) : List SaveRec :=
  sortDescTs (store.filter (fun r => decide (r.game = g)))

/-! ### The save engine (`SaveManager`, source lines 242-408)

`capture()` reaches into the host game and `now()`/`uid()` read the clock and
randomness, so one `SaveEnv` value packages everything a single successful
`create`/`quick` call obtains from outside the store: the current game id,
the timestamp, the fresh record id, the captured scene name and the encoded
payload (`e.state`/`e.enc`). -/

/-- Per-call environment of `create`/`quick`: game id, `now()`, the generated
record id, `s.stats?.sceneName || ""`, and the `enc(s)` result. -/
structure SaveEnv where
  game : String
  ts : Int
  newId : String
  scene : String
  payload : String
  encTag : String
deriving DecidableEq

/-- Truthiness of the `meta.quick` field as a JS value (`null` and `0` are
falsy), used by the default-name scan (source line 311). -/
def quickTruthy (q : Option Int) : Bool :=
  match q with
  | none => false
  | some v => decide (v ≠ 0)

/-- A character is in the ASCII whitespace set trimmed by the models of the
JavaScript `Number()` conversion and `String.prototype.trim`. -/
def isWSp (c : Char) : Bool := c = ' ' || c = '\t' || c = '\n' || c = '\r'

/-- Trim `isWSp` characters from both ends of a character list. -/
def trimWSp (cs : List Char) : List Char :=
  ((cs.dropWhile isWSp).reverse.dropWhile isWSp).reverse

/-- Models JavaScript's `String.prototype.trim` (used on `name?.trim()`,
source line 321) on the ASCII-whitespace fragment. -/
def jsTrim (s : String) : String := String.mk (trimWSp s.toList)

/-- Models `String.prototype.startsWith` (source line 311). -/
def strStartsWith (s pre : String) : Bool :=
  decide (s.toList.take pre.toList.length = pre.toList)

/-- Decimal value of a nonempty all-digit character list, `none` otherwise. -/
def digitsVal? (cs : List Char) : Option Nat :=
  if cs.isEmpty || cs.any (fun c => !c.isDigit) then none
  else some (cs.foldl (fun a c => a * 10 + (c.toNat - 48)) 0)

/-- Split a character list at the first `e`/`E`, returning the part before it
and, when present, the part after it. -/
def splitExp : List Char → List Char × Option (List Char)
  | [] => ([], none)
  | c :: cs =>
    if c = 'e' || c = 'E' then ([], some cs)
    else
      let p := splitExp cs
      (c :: p.1, p.2)

/-- The exponent digits of the `Number()` model: a single leading `+` is
allowed before them. -/
def expDigits : List Char → List Char
  | [] => []
  | c :: cs => if c = '+' then cs else c :: cs

/-- Combine sign, mantissa and optional exponent part into the value of the
`Number()` model. -/
def jsNumberVal (sg : Int) (p : List Char × Option (List Char)) : Option Int :=
  match digitsVal? p.1 with
  | none => none
  | some m =>
    match p.2 with
    | none => some (sg * m)
    | some ecs =>
      match digitsVal? (expDigits ecs) with
      | none => none
      | some e => some (sg * m * (10 : Int) ^ e)

/-- The `Number()` model on a trimmed character list: empty converts to `0`,
otherwise an optional sign followed by the mantissa/exponent form. -/
def jsNumberCore : List Char → Option Int
  | [] => some 0
  | c :: cs =>
    jsNumberVal (if c = '-' then (-1 : Int) else 1)
      (splitExp (if c = '+' || c = '-' then cs else c :: cs))

/-- Models the JavaScript `Number()` string conversion used on
`r.meta.name.slice(5)` (source line 312), on the integer fragment: ASCII
whitespace is trimmed, the empty remainder converts to `0`, and an optional
sign followed by decimal digits with an optional nonnegative decimal exponent
(such as `"1e2"`) converts to the corresponding integer.  Strings outside this
fragment (fractions, hex, `Infinity`) are modelled as NaN (`none`). -/
def jsNumber (s : String) : Option Int := jsNumberCore (trimWSp s.toList)

/-- The value one record contributes to the default-name scan of `create`
(source lines 310-314): `0` for quick records (truthy `meta.quick`) and for
names not starting with `"Save "`, otherwise `Number(name.slice(5))` with NaN
mapped to `0`. -/
def nameContribution (r : SaveRec) : Int :=
  if quickTruthy r.meta.quick || !strStartsWith r.meta.name "Save " then 0
  else
    match jsNumber (r.meta.name.drop 5) with
    | none => 0
    | some n => n

/-- `Math.max(0, ...list.map(...))` of the default-name scan
(source lines 308-315), over the listing of the current game. -/
def defaultMax (g : String) (store : List SaveRec) : Int :=
  ((dbList g store).map nameContribution).foldl max 0

/-- The record `create` persists (source lines 305-330), given the per-call
environment, the requested name and the quick-slot argument: a blank (empty
after trimming) name falls back to `Save <defaultMax + 1>`. -/
def createRec (env : SaveEnv) (name : String) (quick : Option Int)
    (store : List SaveRec) : SaveRec :=
  { id := env.newId
    game := env.game
    meta :=
      { name := if jsTrim name = "" then "Save " ++ toString (defaultMax env.game store + 1)
                else jsTrim name
        scene := env.scene
        ts := env.ts
        quick := quick
        fmt := some METADATA_FORMAT_VERSION }
    state := env.payload
    enc := env.encTag }

/-- `create` as a store transformer: build the record and `put` it. -/
def createStep (env : SaveEnv) (name : String) (quick : Option Int)
    (store : List SaveRec) : List SaveRec :=
  dbPut (createRec env name quick store) store

/-- The quick records of the current game in the order `quick()` sees them
(source lines 333-336): the game listing filtered to non-null `meta.quick`,
stably sorted by ascending timestamp. -/
def qSavesOf (g : String) (store : List SaveRec) : List SaveRec :=
  sortAscTs ((dbList g store).filter (fun r => r.meta.quick.isSome))

/-- The slot numbers `1 .. QUICK_SLOTS` in order, as scanned by the loop on
source lines 341-346. -/
def slotRange : List Int := (List.range QUICK_SLOTS).map (fun i => (i : Int) + 1)

/-- The slot `quick()` selects (source lines 338-349): with a free slot
available, the lowest slot in `slotRange` not used by any quick record
(`s` stays at its initial `1` if the loop never breaks); otherwise the slot of
the first element of the ascending sort. -/
def chosenSlot (g : String) (store : List SaveRec) : Int :=
  let q := qSavesOf g store
  if q.length < QUICK_SLOTS then
    ((slotRange.find? (fun i => !q.any (fun r => decide (r.meta.quick = some i)))).getD 1)
  else
    match q.head? with
    | some r => r.meta.quick.getD 1
    | none => 1

/-- The deletion loop of `quick()` (source lines 351-353): walk the quick
records and delete every one currently holding slot `s`. -/
def delSlot (s : Int) (q : List SaveRec) (store : List SaveRec) : List SaveRec :=
  q.foldl (fun st r => if r.meta.quick = some s then dbDelete r.id st else st) store

/-- `quick` as a store transformer (source lines 332-356): pick the slot,
delete its current holders, then `create` the new quick record named
`Slot <s>/<QUICK_SLOTS>`. -/
def quickStep (env : SaveEnv) (store : List SaveRec) : List SaveRec :=
  let s := chosenSlot env.game store
  let afterDel := delSlot s (qSavesOf env.game store) store
  createStep env ("Slot " ++ toString s ++ "/" ++ toString QUICK_SLOTS) (some s) afterDel

/-- Iterate `quickStep` over a list of per-call environments. -/
def runQuick (envs : List SaveEnv) (store : List SaveRec) : List SaveRec :=
  envs.foldl (fun st e => quickStep e st) store

/-- The quick records of game `g` in a store (order as stored). -/
def gQuick (g : String) (store : List SaveRec) : List SaveRec :=
  store.filter (fun r => decide (r.game = g) && r.meta.quick.isSome)

/-- The first element of a list attaining the minimal timestamp: the record a
stable ascending-by-`ts` sort moves to the front.  Used to state which record
the full-rotation branch of `quick()` evicts. -/
def firstMin : List SaveRec → Option SaveRec
  | [] => none
  | x :: xs =>
    match firstMin xs with
    | none => some x
    | some m => if m.meta.ts < x.meta.ts then some m else some x

/-- The invariant claimed for the rotation: the quick records of the game
carry pairwise distinct slot values and number at most `QUICK_SLOTS`. -/
def QuickInv (g : String) (store : List SaveRec) : Prop :=
  (gQuick g store).Pairwise (fun a b => a.meta.quick ≠ b.meta.quick) ∧
    (gQuick g store).length ≤ QUICK_SLOTS

/-! ### Import (`SaveManager.import`, source lines 378-407)

A bundle entry is one element of the parsed JSON array.  JS `undefined` or
`null` fields are `none`; the falsy-string checks of the validity filter test
for the empty string. -/

/-- One parsed bundle entry: `id`, original `game`, flattened `meta` fields,
and the payload pair.  `ts`/`quick`/`fmt` are `none` when absent. -/
structure Entry where
  id : String
  game : String
  name : String
  scene : String
  ts : Option Int
  quick : Option Int
  fmt : Option Int
  state : String
  enc : String
deriving DecidableEq

/-- The result of `JSON.parse` on the imported text, as far as `import`
inspects it: an array of entries, or some other JSON value. -/
inductive ParsedJson where
  | notArray
  | arr (entries : List Entry)

/-- The validity filter of `import` (source line 388):
`r?.id && r?.state && r?.meta?.ts != null`. -/
def validEntry (e : Entry) : Bool :=
  !decide (e.id = "") && !decide (e.state = "") && e.ts.isSome

/-- The record `import` persists for a surviving entry (source lines 392-394):
the entry itself with `game` rewritten to the current game id.  (`ts.getD 0`
is never reached: the validity filter guarantees a present timestamp.) -/
def entryToRec (g : String) (e : Entry) : SaveRec :=
  { id := e.id
    game := g
    meta := { name := e.name, scene := e.scene, ts := e.ts.getD 0,
              quick := e.quick, fmt := e.fmt }
    state := e.state
    enc := e.enc }

/-- `import` (source lines 378-407) as a store transformer, returning the
outcome (the thrown message, if any) together with the resulting store.  The
version read from the first entry is `parsed[0]?.meta?.fmt || 0`; every throw
happens before any `put`, so a failing import leaves the store unchanged. -/
def importCS (g : String) (p : ParsedJson) (store : List SaveRec) :
    Except String Unit × List SaveRec :=
  match p with
  | .notArray => (.error "Invalid format", store)
  | .arr entries =>
    let version : Int := ((entries.head?.bind (fun e => e.fmt)).getD 0)
    if version = METADATA_FORMAT_VERSION then
      let valid := entries.filter validEntry
      if valid.isEmpty then (.error "No valid saves found in file.", store)
      else (.ok (), valid.foldl (fun st e => dbPut (entryToRec g e) st) store)
    else (.error "Incompatible save version", store)

/-! ### Load (`SaveManager.load`, source lines 261-303)

The collaborator surface reached inside `load` is modelled by explicit
behaviours: each engine call either throws (with a message) or returns,
possibly invoking the callback it was handed.  The whole body sits inside one
`try`, whose `catch` turns any thrown error into the
`toast("Load failed: " + e.message)` of line 300. -/

/-- Behaviour of one call into `saveCookie` (source line 290): throw, return
after synchronously invoking the `run` callback, or return without it. -/
inductive SCAct where
  | throws (msg : String)
  | invokesRun
  | returnsOnly

/-- Behaviour of one call into `st.set`: throw, return after synchronously
invoking its callback, or return without it. -/
inductive SetAct where
  | throws (msg : String)
  | callsCb
  | returnsOnly

/-- The host-engine surface `load` touches: presence of `saveCookie`,
`clearScreen` and `loadAndRestoreGame || restoreGame`, and the behaviour of
each call site. -/
structure EngineEnv where
  saveCookiePresent : Bool
  saveCookieAct : SCAct
  setSlotAct : SetAct
  setStateAct : SetAct
  clearScreenPresent : Bool
  fnPresent : Bool
  clearScreenAct : Except String Unit

/-- How a completed `load` ended: engine-native replay via `clearScreen`,
hard state injection plus reload, or an engine call that completed without
running the callback. -/
inductive LoadEffect where
  | primary
  | hardInject
  | cookieSet
  | slotSet
deriving DecidableEq

/-- The everything-in-scope environment of one `load(id)` call. -/
structure LoadEnv (α : Type) where
  jl : JsonLib α
  lz : Option LZLib
  db : List SaveRec
  apiPresent : Bool
  asString : α → Option String
  strParse : String → Option α
  engine : EngineEnv

/-- Message thrown when the record is absent (source line 264). -/
def missingMsg : String := "Save file missing from database."

/-- Message thrown when the game API is absent (source line 267). -/
def noApiMsg : String := "Game API not found."

/-- Model constant standing for the message of the `SyntaxError` a failing
`JSON.parse` of a string-typed state throws (source line 272). -/
def jsonSyntaxMsg : String := "Unexpected token in JSON"

/-- The `run` closure (source lines 275-286): try the engine-native path
(`clearScreen` around `loadAndRestoreGame || restoreGame`); its failure is
caught and logged, after which the hard fallback `st.set("state", ...)`
injects the full state (and reloads). -/
def runRestore (e : EngineEnv) : Except String LoadEffect :=
  let native : Option (Except String LoadEffect) :=
    if e.clearScreenPresent && e.fnPresent then
      match e.clearScreenAct with
      | .ok _ => some (.ok .primary)
      | .error _ => none
    else none
  match native with
  | some r => r
  | none =>
    match e.setStateAct with
    | .throws m => .error m
    | _ => .ok .hardInject

/-- The engine hand-off (source lines 288-298): prefer `saveCookie`, else
write the slot via `st.set` with `run` as callback; a throw from either is
caught and answered with the hard fallback `st.set("state", ...)`, whose own
throw propagates outward. -/
def engineAttempt (e : EngineEnv) : Except String LoadEffect :=
  let attempt : Except String LoadEffect :=
    if e.saveCookiePresent then
      match e.saveCookieAct with
      | .throws m => .error m
      | .invokesRun => runRestore e
      | .returnsOnly => .ok .cookieSet
    else
      match e.setSlotAct with
      | .throws m => .error m
      | .callsCb => runRestore e
      | .returnsOnly => .ok .slotSet
  match attempt with
  | .ok eff => .ok eff
  | .error _ =>
    match e.setStateAct with
    | .throws m => .error m
    | _ => .ok .hardInject

/-- The body of `load(id)` without its outer `catch` (source lines 262-298):
fetch the record, require the API, decode, re-parse string-typed states, then
hand off to the engine.  An `Except.error` is a throw reaching the outer
`catch`. -/
def loadBody {α : Type} (env : LoadEnv α) (id : String) :
    Except String LoadEffect :=
  match dbGet id env.db with
  | none => .error missingMsg
  | some r =>
    if env.apiPresent then
      match dec env.jl env.lz { state := r.state, enc := r.enc } with
      | .error e => .error e.message
      | .ok s =>
        match env.asString s with
        | some str =>
          match env.strParse str with
          | none => .error jsonSyntaxMsg
          | some _ => engineAttempt env.engine
        | none => engineAttempt env.engine
    else .error noApiMsg

/-- What a finished `load(id)` call looks like from outside: a completed
effect, a `toast`ed failure message, or an error escaping to the caller. -/
inductive LoadOutcome where
  | done (eff : LoadEffect)
  | toastMsg (msg : String)
  | uncaught (msg : String)
deriving DecidableEq

/-- `load(id)` (source lines 261-303): the outer `catch` turns every thrown
error into the user-visible toast of line 300. -/
def load {α : Type} (env : LoadEnv α) (id : String) : LoadOutcome :=
  match loadBody env id with
  | .ok eff => .done eff
  | .error m => .toastMsg ("Load failed: " ++ m)

/-! ### Spec-side default naming

The specification describes the blank-name default differently from the
source: it scans manual records whose name matches the exact pattern
`"Save <integer>"`.  The next two definitions state that description, for
comparison against `defaultMax`. -/

/-- The decimal value of a nonempty all-digit string, `none` otherwise: the
`<integer>` of the spec's `"Save <integer>"` pattern. -/
def decDigits? (s : String) : Option Nat :=
  digitsVal? s.toList

/-- The integer a record contributes under the specification's wording: its
name's matched `<integer>` when the name is exactly `"Save "` followed by an
integer numeral, `0` otherwise. -/
def specNameValue (r : SaveRec) : Int :=
  if strStartsWith r.meta.name "Save " then
    match decDigits? (r.meta.name.drop 5) with
    | some n => (n : Int)
    | none => 0
  else 0

/-- The default-name maximum as the specification words it: the maximum
matched integer over manual (non-quick) records of the title whose name
matches the exact pattern `"Save <integer>"`, and `0` when none match. -/
def specDefaultMax (g : String) (store : List SaveRec) : Int :=
  ((store.filter (fun r => decide (r.game = g) && r.meta.quick.isNone)).map
    specNameValue).foldl max 0

/-! ### Concrete fixtures for witnesses and counterexamples -/

/-- A manual save record with the given id, game, name and timestamp. -/
def manualRec (id g name : String) (ts : Int) : SaveRec :=
  { id := id, game := g
    meta := { name := name, scene := "", ts := ts, quick := none, fmt := some 1 }
    state := "st", enc := "plain" }

/-- A quick save record with the given id, game, slot and timestamp. -/
def quickRec (id g : String) (slot ts : Int) : SaveRec :=
  { id := id, game := g
    meta := { name := "Slot " ++ toString slot ++ "/5", scene := "", ts := ts,
              quick := some slot, fmt := some 1 }
    state := "st", enc := "plain" }

/-- A concrete per-call environment for game `"g"` with clock value `n`. -/
def envAt (n : Nat) : SaveEnv :=
  { game := "g", ts := (n : Int), newId := "id" ++ toString n, scene := "",
    payload := "st", encTag := "plain" }

/-- The store after `n` quick saves for game `"g"` from an empty store. -/
def storeAfter : Nat → List SaveRec
  | 0 => []
  | n + 1 => quickStep (envAt (n + 1)) (storeAfter n)

/-- A concrete `JSON` collaborator over `Nat` states for witnesses: decimal
numerals round-trip through it. -/
def natJson : JsonLib Nat :=
  { stringify := fun n => toString n, parse := fun s => digitsVal? s.toList }

/-- A concrete reversible compression backend for witnesses. -/
def idLZ : LZLib :=
  { compressToBase64 := fun s => s, decompressFromBase64 := fun s => s }

/-- Store containing a manual record named `Save 1e2`: the suffix `1e2` is not
an integer numeral, yet JavaScript's `Number("1e2")` is `100`. -/
def cexNameStore : List SaveRec := [manualRec "a" "g" "Save 1e2" 1]

/-- Manual saves `Save 1` and `Save 3` (note the gap). -/
def c6Store : List SaveRec :=
  [manualRec "a" "g" "Save 1" 1, manualRec "b" "g" "Save 3" 2]

/-- A store holding quick saves in slots 1, 2 and 4, leaving 3 free. -/
def c4Store : List SaveRec :=
  [quickRec "q1" "g" 1 10, quickRec "q2" "g" 2 20, quickRec "q4" "g" 4 30]

/-- A full rotation: five quick saves, the one in slot 2 being oldest. -/
def c5Store : List SaveRec :=
  [quickRec "q1" "g" 1 10, quickRec "q2" "g" 2 5, quickRec "q3" "g" 3 30,
   quickRec "q4" "g" 4 40, quickRec "q5" "g" 5 50]

/-- A bundle entry with the given id, timestamp and format version. -/
def entryAt (id : String) (ts : Option Int) (fmt : Option Int) : Entry :=
  { id := id, game := "foreign", name := "n" ++ id, scene := "", ts := ts,
    quick := none, fmt := fmt, state := "st", enc := "plain" }

/-- A three-entry bundle whose middle entry lacks its `id`. -/
def bundle3 : List Entry :=
  [entryAt "x1" (some 5) (some 1), entryAt "" (some 6) (some 1),
   entryAt "x3" (some 7) (some 1)]

/-- A concrete engine surface whose calls all return without callbacks. -/
def quietEngine : EngineEnv :=
  { saveCookiePresent := false, saveCookieAct := .returnsOnly,
    setSlotAct := .returnsOnly, setStateAct := .returnsOnly,
    clearScreenPresent := false, fnPresent := false, clearScreenAct := .ok () }

/-- A concrete `load` environment over an empty database. -/
def emptyLoadEnv : LoadEnv Nat :=
  { jl := natJson, lz := none, db := [], apiPresent := true,
    asString := fun _ => none, strParse := fun _ => none, engine := quietEngine }

/-! ## Lemmas about the sorts -/

theorem insAsc_perm (r : SaveRec) (l : List SaveRec) :
    List.Perm (insAsc r l) (r :: l) := by
  induction l with
  | nil => rfl
  | cons x xs ih =>
    rw [insAsc]
    by_cases h : x.meta.ts < r.meta.ts
    · simpa [h] using ((ih.cons x).trans (List.Perm.swap r x xs))
    · simp [h]

theorem sortAscTs_perm (l : List SaveRec) : List.Perm (sortAscTs l) l := by
  induction l with
  | nil => rfl
  | cons x xs ih => exact (insAsc_perm x (sortAscTs xs)).trans (ih.cons x)

theorem insDesc_perm (r : SaveRec) (l : List SaveRec) :
    List.Perm (insDesc r l) (r :: l) := by
  induction l with
  | nil => rfl
  | cons x xs ih =>
    rw [insDesc]
    by_cases h : r.meta.ts < x.meta.ts
    · simpa [h] using ((ih.cons x).trans (List.Perm.swap r x xs))
    · simp [h]

theorem sortDescTs_perm (l : List SaveRec) : List.Perm (sortDescTs l) l := by
  induction l with
  | nil => rfl
  | cons x xs ih => exact (insDesc_perm x (sortDescTs xs)).trans (ih.cons x)

theorem head?_insAsc (r : SaveRec) (l : List SaveRec) :
    (insAsc r l).head? =
      some (match l.head? with
            | none => r
            | some y => if y.meta.ts < r.meta.ts then y else r) := by
  cases l with
  | nil => rfl
  | cons x xs =>
    rw [insAsc]
    by_cases h : x.meta.ts < r.meta.ts <;> simp [h]

theorem head?_sortAscTs (l : List SaveRec) : (sortAscTs l).head? = firstMin l := by
  induction l with
  | nil => rfl
  | cons x xs ih =>
    rw [sortAscTs, head?_insAsc, ih, firstMin]
    cases firstMin xs with
    | none => rfl
    | some m => by_cases h : m.meta.ts < x.meta.ts <;> simp [h]

theorem firstMin_eq_none {l : List SaveRec} : firstMin l = none ↔ l = [] := by
  cases l with
  | nil => simp [firstMin]
  | cons x xs =>
    rw [firstMin]
    cases firstMin xs with
    | none => simp
    | some m => by_cases h : m.meta.ts < x.meta.ts <;> simp [h]

theorem firstMin_mem {l : List SaveRec} {m : SaveRec} (h : firstMin l = some m) :
    m ∈ l := by
  induction l with
  | nil => simp [firstMin] at h
  | cons x xs ih =>
    cases hxs : firstMin xs with
    | none =>
      simp only [firstMin, hxs] at h
      injection h with h
      simp [h]
    | some m' =>
      simp only [firstMin, hxs] at h
      by_cases ht : m'.meta.ts < x.meta.ts
      · rw [if_pos ht] at h
        injection h with h
        exact List.mem_cons_of_mem x (ih (h ▸ hxs))
      · rw [if_neg ht] at h
        injection h with h
        simp [h]

theorem firstMin_min (l : List SaveRec) :
    ∀ m, firstMin l = some m → ∀ r ∈ l, m.meta.ts ≤ r.meta.ts := by
  induction l with
  | nil => intro m h; simp [firstMin] at h
  | cons x xs ih =>
    intro m h
    cases hxs : firstMin xs with
    | none =>
      simp only [firstMin, hxs] at h
      injection h with h
      subst h
      rw [firstMin_eq_none.mp hxs]
      simp
    | some m' =>
      simp only [firstMin, hxs] at h
      by_cases ht : m'.meta.ts < x.meta.ts
      · rw [if_pos ht] at h
        injection h with h
        subst h
        intro r hr
        rcases List.mem_cons.mp hr with rfl | hr
        · exact le_of_lt ht
        · exact ih _ hxs r hr
      · rw [if_neg ht] at h
        injection h with h
        subst h
        intro r hr
        rcases List.mem_cons.mp hr with rfl | hr
        · exact le_refl _
        · exact le_trans (not_lt.mp ht) (ih _ hxs r hr)

theorem firstMin_first {l : List SaveRec} {m : SaveRec} (h : firstMin l = some m) :
    ∃ l1 l2, l = l1 ++ m :: l2 ∧ ∀ r ∈ l1, m.meta.ts < r.meta.ts := by
  induction l with
  | nil => simp [firstMin] at h
  | cons x xs ih =>
    cases hxs : firstMin xs with
    | none =>
      simp only [firstMin, hxs] at h
      injection h with h
      exact ⟨[], xs, by simp [h], by simp⟩
    | some m' =>
      simp only [firstMin, hxs] at h
      by_cases ht : m'.meta.ts < x.meta.ts
      · rw [if_pos ht] at h
        injection h with h
        subst h
        obtain ⟨l1, l2, rfl, hl1⟩ := ih hxs
        refine ⟨x :: l1, l2, rfl, ?_⟩
        intro r hr
        rcases List.mem_cons.mp hr with rfl | hr
        · exact ht
        · exact hl1 r hr
      · rw [if_neg ht] at h
        injection h with h
        exact ⟨[], xs, by simp [h], by simp⟩

/-! ## Lemmas about the store operations -/

theorem mem_dbList {g : String} {store : List SaveRec} {r : SaveRec} :
    r ∈ dbList g store ↔ r ∈ store ∧ r.game = g := by
  rw [dbList,
    List.Perm.mem_iff (sortDescTs_perm (List.filter (fun r => decide (r.game = g)) store)),
    List.mem_filter]
  simp

theorem mem_qSavesOf {g : String} {store : List SaveRec} {r : SaveRec} :
    r ∈ qSavesOf g store ↔ r ∈ store ∧ r.game = g ∧ r.meta.quick.isSome := by
  rw [qSavesOf,
    List.Perm.mem_iff (sortAscTs_perm (List.filter (fun r => r.meta.quick.isSome) (dbList g store))),
    List.mem_filter, mem_dbList]
  tauto

theorem mem_gQuick {g : String} {store : List SaveRec} {r : SaveRec} :
    r ∈ gQuick g store ↔ r ∈ store ∧ r.game = g ∧ r.meta.quick.isSome := by
  rw [gQuick, List.mem_filter]
  simp

theorem length_qSavesOf (g : String) (store : List SaveRec) :
    (qSavesOf g store).length = (gQuick g store).length := by
  have h1 := List.Perm.length_eq
    (sortAscTs_perm (List.filter (fun r => r.meta.quick.isSome) (dbList g store)))
  have h2 := List.Perm.length_eq
    (List.Perm.filter (fun r => r.meta.quick.isSome)
      (sortDescTs_perm (List.filter (fun r => decide (r.game = g)) store)))
  rw [qSavesOf, h1, dbList, h2, List.filter_filter, gQuick]
  exact congrArg List.length (List.filter_congr (fun a _ => Bool.and_comm _ _))

theorem mem_dbPut {r : SaveRec} {store : List SaveRec} {x : SaveRec} :
    x ∈ dbPut r store ↔ (x ∈ store ∧ x.id ≠ r.id) ∨ x = r := by
  rw [dbPut, List.mem_append, List.mem_filter]
  simp

theorem mem_dbDelete {id : String} {store : List SaveRec} {x : SaveRec} :
    x ∈ dbDelete id store ↔ x ∈ store ∧ x.id ≠ id := by
  rw [dbDelete, List.mem_filter]
  simp

theorem delSlot_cons (s : Int) (r : SaveRec) (q store : List SaveRec) :
    delSlot s (r :: q) store =
      delSlot s q (if r.meta.quick = some s then dbDelete r.id store else store) := rfl

theorem mem_delSlot {s : Int} {q store : List SaveRec} {x : SaveRec} :
    x ∈ delSlot s q store ↔
      x ∈ store ∧ ∀ r ∈ q, r.meta.quick = some s → x.id ≠ r.id := by
  induction q generalizing store with
  | nil => simp [delSlot]
  | cons r q ih =>
    rw [delSlot_cons, ih]
    by_cases hr : r.meta.quick = some s
    · rw [if_pos hr, mem_dbDelete]
      constructor
      · rintro ⟨⟨hx, hid⟩, hall⟩
        refine ⟨hx, ?_⟩
        intro r' hr' hq'
        rcases List.mem_cons.mp hr' with rfl | hr'
        · exact hid
        · exact hall r' hr' hq'
      · rintro ⟨hx, hall⟩
        exact ⟨⟨hx, hall r (List.mem_cons_self r q) hr⟩,
          fun r' hr' hq' => hall r' (List.mem_cons_of_mem r hr') hq'⟩
    · rw [if_neg hr]
      constructor
      · rintro ⟨hx, hall⟩
        refine ⟨hx, ?_⟩
        intro r' hr' hq'
        rcases List.mem_cons.mp hr' with rfl | hr'
        · exact absurd hq' hr
        · exact hall r' hr' hq'
      · rintro ⟨hx, hall⟩
        exact ⟨hx, fun r' hr' hq' => hall r' (List.mem_cons_of_mem r hr') hq'⟩

theorem delSlot_sublist (s : Int) (q store : List SaveRec) :
    List.Sublist (delSlot s q store) store := by
  induction q generalizing store with
  | nil => exact List.Sublist.refl store
  | cons r q ih =>
    rw [delSlot_cons]
    by_cases hr : r.meta.quick = some s
    · rw [if_pos hr]
      exact (ih _).trans (List.filter_sublist store)
    · rw [if_neg hr]
      exact ih store

/-! ## Lemmas about the slot choice -/

theorem find?_split {α : Type} {p : α → Bool} {l : List α} {a : α}
    (h : l.find? p = some a) :
    p a = true ∧ ∃ l1 l2, l = l1 ++ a :: l2 ∧ ∀ x ∈ l1, p x = false := by
  induction l with
  | nil => simp [List.find?] at h
  | cons b l ih =>
    by_cases hb : p b
    · rw [List.find?_cons_of_pos _ hb] at h
      injection h with h
      subst h
      exact ⟨hb, [], l, rfl, by simp⟩
    · rw [List.find?_cons_of_neg _ hb] at h
      obtain ⟨hpa, l1, l2, rfl, hl1⟩ := ih h
      refine ⟨hpa, b :: l1, l2, rfl, ?_⟩
      intro x hx
      rcases List.mem_cons.mp hx with rfl | hx
      · exact Bool.eq_false_iff.mpr hb
      · exact hl1 x hx

theorem slotRange_eq : slotRange = [1, 2, 3, 4, 5] := by decide

theorem mem_slotRange {i : Int} : i ∈ slotRange ↔ 1 ≤ i ∧ i ≤ 5 := by
  rw [slotRange_eq]
  simp only [List.mem_cons, List.not_mem_nil, or_false]
  omega

theorem slotRange_pairwise : slotRange.Pairwise (fun a b => a < b) := by decide

/-- In the free-slot branch, the chosen slot lies in `[1, QUICK_SLOTS]`, is
held by no quick record of the game, and every smaller slot in the range is
held by one. -/
theorem chosenSlot_free {g : String} {store : List SaveRec}
    (h : (gQuick g store).length < QUICK_SLOTS) :
    (1 ≤ chosenSlot g store ∧ chosenSlot g store ≤ 5) ∧
    (∀ r ∈ store, r.game = g → r.meta.quick ≠ some (chosenSlot g store)) ∧
    (∀ j : Int, 1 ≤ j → j < chosenSlot g store →
      ∃ r, r ∈ store ∧ r.game = g ∧ r.meta.quick = some j) := by
  have hq : (qSavesOf g store).length < 5 := by
    rw [length_qSavesOf]
    exact h
  have hfind : ∃ s, slotRange.find?
      (fun i => !(qSavesOf g store).any (fun r => decide (r.meta.quick = some i))) = some s := by
    cases hf : slotRange.find?
        (fun i => !(qSavesOf g store).any (fun r => decide (r.meta.quick = some i))) with
    | some s => exact ⟨s, rfl⟩
    | none =>
      exfalso
      have hall := List.find?_eq_none.mp hf
      have hmem : ∀ i : Int, i ∈ slotRange →
          some i ∈ (qSavesOf g store).map (fun r => r.meta.quick) := by
        intro i hi
        have hpi : (!(qSavesOf g store).any (fun r => decide (r.meta.quick = some i))) = false :=
          Bool.eq_false_iff.mpr (hall i hi)
        rw [Bool.not_eq_false'] at hpi
        obtain ⟨r, hr, hri⟩ := List.any_eq_true.mp hpi
        simp only [decide_eq_true_eq] at hri
        exact List.mem_map.mpr ⟨r, hr, hri⟩
      have hsub : slotRange.map some ⊆ (qSavesOf g store).map (fun r => r.meta.quick) := by
        intro v hv
        obtain ⟨i, hi, rfl⟩ := List.mem_map.mp hv
        exact hmem i hi
      have hnd : (slotRange.map some).Nodup := by decide
      have hle := (hnd.subperm hsub).length_le
      rw [List.length_map, List.length_map] at hle
      have h5 : slotRange.length = 5 := by decide
      omega
  obtain ⟨s, hs⟩ := hfind
  have hcs : chosenSlot g store = s := by
    rw [chosenSlot]
    simp only [if_pos hq, hs, Option.getD_some, QUICK_SLOTS]
  obtain ⟨hps, l1, l2, hsplit, hl1⟩ := find?_split hs
  have hunused : ∀ r ∈ qSavesOf g store, r.meta.quick ≠ some s := by
    rw [Bool.not_eq_true'] at hps
    intro r hr hq'
    have hfalse := List.any_eq_false.mp hps r hr
    simp [hq'] at hfalse
  have hrange : s ∈ slotRange := List.mem_of_find?_eq_some hs
  refine ⟨?_, ?_, ?_⟩
  · rw [hcs]
    exact mem_slotRange.mp hrange
  · intro r hr hrg
    rw [hcs]
    intro hq'
    have hrq : r ∈ qSavesOf g store := mem_qSavesOf.mpr ⟨hr, hrg, by rw [hq']; rfl⟩
    exact hunused r hrq hq'
  · intro j h1 hj
    rw [hcs] at hj
    have hjr : j ∈ slotRange := mem_slotRange.mpr ⟨h1, by
      have := (mem_slotRange.mp hrange).2
      omega⟩
    have hjl1 : j ∈ l1 := by
      rw [hsplit] at hjr
      rcases List.mem_append.mp hjr with hj1 | hj2
      · exact hj1
      · exfalso
        rcases List.mem_cons.mp hj2 with rfl | hj2
        · omega
        · have hpw := slotRange_pairwise
          rw [hsplit] at hpw
          have hp2 := (List.pairwise_append.mp hpw).2.1
          have := (List.pairwise_cons.mp hp2).1 j hj2
          omega
    have hpj := hl1 j hjl1
    rw [Bool.not_eq_false'] at hpj
    obtain ⟨r, hr, hri⟩ := List.any_eq_true.mp hpj
    simp only [decide_eq_true_eq] at hri
    obtain ⟨hr1, hr2, _⟩ := mem_qSavesOf.mp hr
    exact ⟨r, hr1, hr2, hri⟩

/-- In the full branch, the chosen slot is the slot of the head of the
ascending sort of the quick records. -/
theorem chosenSlot_full {g : String} {store : List SaveRec}
    (h : QUICK_SLOTS ≤ (gQuick g store).length) :
    ∃ r0, (qSavesOf g store).head? = some r0 ∧
      r0.meta.quick = some (chosenSlot g store) := by
  have hq : (5 : Nat) ≤ (qSavesOf g store).length := by
    rw [length_qSavesOf]
    exact h
  have hnlt : ¬ (qSavesOf g store).length < QUICK_SLOTS := not_lt.mpr hq
  cases hhd : (qSavesOf g store).head? with
  | none =>
    exfalso
    rw [List.head?_eq_none_iff] at hhd
    rw [hhd] at hq
    simp at hq
  | some r0 =>
    have hr0 : r0 ∈ qSavesOf g store :=
      List.mem_of_mem_head? (Option.mem_def.mpr hhd)
    obtain ⟨_, _, hsome⟩ := mem_qSavesOf.mp hr0
    obtain ⟨v, hv⟩ := Option.isSome_iff_exists.mp hsome
    refine ⟨r0, rfl, ?_⟩
    rw [chosenSlot]
    simp only [if_neg hnlt, hhd, hv, Option.getD_some]

/-! ## The rotation invariant -/

theorem quickStep_eq (env : SaveEnv) (store : List SaveRec) :
    quickStep env store =
      dbPut
        (createRec env
          ("Slot " ++ toString (chosenSlot env.game store) ++ "/" ++ toString QUICK_SLOTS)
          (some (chosenSlot env.game store))
          (delSlot (chosenSlot env.game store) (qSavesOf env.game store) store))
        (delSlot (chosenSlot env.game store) (qSavesOf env.game store) store) := rfl

theorem length_lt_of_sublist_of_not_mem {l' l : List SaveRec}
    (hs : List.Sublist l' l) {a : SaveRec} (hal : a ∈ l) (hnl : a ∉ l') :
    l'.length < l.length := by
  rcases lt_or_eq_of_le hs.length_le with hlt | heq
  · exact hlt
  · exact absurd ((hs.eq_of_length heq).symm ▸ hal) hnl

/-- After the deletion loop, no quick record of the game still holds the
deleted slot. -/
theorem delSlot_clears {g : String} {store : List SaveRec} {s : Int} {x : SaveRec}
    (hx : x ∈ delSlot s (qSavesOf g store) store)
    (hxg : x.game = g) (hxq : x.meta.quick = some s) : False := by
  obtain ⟨hxs, hall⟩ := mem_delSlot.mp hx
  have hxmem : x ∈ qSavesOf g store := mem_qSavesOf.mpr ⟨hxs, hxg, by rw [hxq]; rfl⟩
  exact hall x hxmem hxq rfl

/-- One `quick()` call preserves the rotation invariant. -/
theorem quickStep_inv {g : String} {env : SaveEnv} {store : List SaveRec}
    (hg : env.game = g) (h : QuickInv g store) : QuickInv g (quickStep env store) := by
  subst hg
  obtain ⟨hpw, hlen⟩ := h
  rw [QuickInv, quickStep_eq]
  set s := chosenSlot env.game store with hs
  set ad := delSlot s (qSavesOf env.game store) store with had
  set nr := createRec env ("Slot " ++ toString s ++ "/" ++ toString QUICK_SLOTS) (some s) ad
    with hnr
  have hnrg : nr.game = env.game := rfl
  have hnrq : nr.meta.quick = some s := rfl
  have hpred : (decide (nr.game = env.game) && nr.meta.quick.isSome) = true := by
    rw [hnrg, hnrq]
    simp
  have hgq : gQuick env.game (dbPut nr ad) =
      gQuick env.game (ad.filter (fun x => !decide (x.id = nr.id))) ++ [nr] := by
    rw [dbPut, gQuick, List.filter_append, gQuick]
    congr 1
    simp [List.filter_cons, hpred]
  have hA_sub_ad :
      List.Sublist (gQuick env.game (ad.filter (fun x => !decide (x.id = nr.id))))
        (gQuick env.game ad) :=
    List.Sublist.filter _ (List.filter_sublist ad)
  have had_sub : List.Sublist (gQuick env.game ad) (gQuick env.game store) :=
    List.Sublist.filter _ (delSlot_sublist s (qSavesOf env.game store) store)
  constructor
  · rw [hgq, List.pairwise_append]
    refine ⟨hpw.sublist (hA_sub_ad.trans had_sub), List.pairwise_singleton _ _, ?_⟩
    intro a ha b hb
    rw [List.mem_singleton] at hb
    subst hb
    obtain ⟨haf, hag, _⟩ := mem_gQuick.mp ha
    have haad : a ∈ ad := List.mem_of_mem_filter haf
    intro heq
    exact delSlot_clears haad hag (heq.trans hnrq)
  · rw [hgq, List.length_append, List.length_singleton]
    by_cases hcase : (gQuick env.game store).length < QUICK_SLOTS
    · have h1 := (hA_sub_ad.trans had_sub).length_le
      omega
    · push_neg at hcase
      obtain ⟨r0, hhd, hr0q⟩ := chosenSlot_full hcase
      have hr0mem : r0 ∈ qSavesOf env.game store :=
        List.mem_of_mem_head? (Option.mem_def.mpr hhd)
      obtain ⟨hr0s, hr0g, hr0some⟩ := mem_qSavesOf.mp hr0mem
      have hr0gq : r0 ∈ gQuick env.game store := mem_gQuick.mpr ⟨hr0s, hr0g, hr0some⟩
      have hr0notin : r0 ∉ gQuick env.game ad := by
        intro hin
        obtain ⟨hinad, _, _⟩ := mem_gQuick.mp hin
        exact delSlot_clears hinad hr0g hr0q
      have hlt := length_lt_of_sublist_of_not_mem had_sub hr0gq hr0notin
      have hA := hA_sub_ad.length_le
      omega

/-- Any sequence of `quick()` calls for one game preserves the invariant. -/
theorem runQuick_inv {g : String} {envs : List SaveEnv} {store : List SaveRec}
    (hg : ∀ e ∈ envs, e.game = g) (h : QuickInv g store) :
    QuickInv g (runQuick envs store) := by
  induction envs generalizing store with
  | nil => exact h
  | cons e envs ih =>
    show QuickInv g (runQuick envs (quickStep e store))
    exact ih (fun e' he' => hg e' (List.mem_cons_of_mem e he'))
      (quickStep_inv (hg e (List.mem_cons_self e envs)) h)

theorem mem_qBase {g : String} {store : List SaveRec} {r : SaveRec} :
    r ∈ (dbList g store).filter (fun r => r.meta.quick.isSome) ↔
      r ∈ store ∧ r.game = g ∧ r.meta.quick.isSome := by
  rw [List.mem_filter, mem_dbList]
  tauto

/-! ## Lemmas about the Number() model and the default-name scan -/

theorem isDigit_ne {c d : Char} (h : c.isDigit = true) (hd : d.isDigit = false) :
    ¬ (c = d) := by
  intro he
  rw [he, hd] at h
  exact Bool.false_ne_true h

theorem isDigit_not_wsp {c : Char} (h : c.isDigit = true) : isWSp c = false := by
  have h1 : ¬ (c = ' ') := isDigit_ne h (by decide)
  have h2 : ¬ (c = '\t') := isDigit_ne h (by decide)
  have h3 : ¬ (c = '\n') := isDigit_ne h (by decide)
  have h4 : ¬ (c = '\r') := isDigit_ne h (by decide)
  rw [isWSp, decide_eq_false h1, decide_eq_false h2, decide_eq_false h3,
    decide_eq_false h4]
  rfl

theorem dropWhile_eq_self_of_forall {p : Char → Bool} {cs : List Char}
    (h : ∀ c ∈ cs, p c = false) : cs.dropWhile p = cs := by
  cases cs with
  | nil => rfl
  | cons c cs =>
    rw [List.dropWhile_cons, h c (List.mem_cons_self c cs)]
    simp

theorem trimWSp_eq_self {cs : List Char} (h : ∀ c ∈ cs, isWSp c = false) :
    trimWSp cs = cs := by
  rw [trimWSp, dropWhile_eq_self_of_forall h,
    dropWhile_eq_self_of_forall (fun c hc => h c (List.mem_reverse.mp hc)),
    List.reverse_reverse]

theorem splitExp_no_e {cs : List Char}
    (h : ∀ x ∈ cs, ¬ (x = 'e') ∧ ¬ (x = 'E')) : splitExp cs = (cs, none) := by
  induction cs with
  | nil => rfl
  | cons c cs ih =>
    obtain ⟨he, hE⟩ := h c (List.mem_cons_self c cs)
    have hcond : ¬ ((decide (c = 'e') || decide (c = 'E')) = true) := by
      rw [decide_eq_false he, decide_eq_false hE]
      decide
    simp only [splitExp, if_neg hcond,
      ih (fun x hx => h x (List.mem_cons_of_mem c hx))]

theorem digitsVal?_digits {cs : List Char} (hne : cs ≠ [])
    (h : ∀ x ∈ cs, x.isDigit = true) : ∃ m, digitsVal? cs = some m := by
  have hempty : cs.isEmpty = false := by
    cases cs with
    | nil => exact absurd rfl hne
    | cons c cs => rfl
  have hany : cs.any (fun c => !c.isDigit) = false := by
    rw [List.any_eq_false]
    intro x hx
    simp [h x hx]
  refine ⟨cs.foldl (fun a c => a * 10 + (c.toNat - 48)) 0, ?_⟩
  rw [digitsVal?, if_neg (by rw [hempty, hany]; decide)]

/-- On an all-digit suffix, the `Number()` model returns exactly the integer
the spec-side numeral match extracts (and `0` for the empty suffix on both
sides). -/
theorem jsNumber_all_digits {s : String} (h : s.toList.all Char.isDigit = true) :
    jsNumber s = some (match decDigits? s with
                       | some n => (n : Int)
                       | none => 0) := by
  have hall : ∀ c ∈ s.toList, c.isDigit = true := by
    intro c hc
    exact List.all_eq_true.mp h c hc
  have htrim : trimWSp s.toList = s.toList :=
    trimWSp_eq_self (fun c hc => isDigit_not_wsp (hall c hc))
  rw [jsNumber, htrim, decDigits?]
  cases hs : s.toList with
  | nil => rfl
  | cons c cs =>
    have hall' : ∀ x ∈ c :: cs, x.isDigit = true := hs ▸ hall
    have hcd : c.isDigit = true := hall' c (List.mem_cons_self c cs)
    have hcm : ¬ (c = '-') := isDigit_ne hcd (by decide)
    have hcp : ¬ (c = '+') := isDigit_ne hcd (by decide)
    have hcond : ¬ ((decide (c = '+') || decide (c = '-')) = true) := by
      rw [decide_eq_false hcp, decide_eq_false hcm]
      decide
    rw [jsNumberCore, if_neg hcm, if_neg hcond,
      splitExp_no_e (fun x hx =>
        ⟨isDigit_ne (hall' x hx) (by decide), isDigit_ne (hall' x hx) (by decide)⟩)]
    obtain ⟨m, hm⟩ := digitsVal?_digits (List.cons_ne_nil c cs) hall'
    simp only [jsNumberVal, hm, one_mul]

theorem foldl_max_perm {l l' : List Int} (h : List.Perm l l') :
    ∀ a : Int, l.foldl max a = l'.foldl max a := by
  induction h with
  | nil => intro a; rfl
  | cons x _ ih => intro a; rw [List.foldl_cons, List.foldl_cons, ih]
  | swap x y l =>
    intro a
    rw [List.foldl_cons, List.foldl_cons, List.foldl_cons, List.foldl_cons,
      max_assoc, max_comm y x, ← max_assoc]
  | trans _ _ ih1 ih2 => intro a; rw [ih1, ih2]

/-- Replacing each element's contribution by a per-element equal one and
dropping the elements contributing `0` leaves a `foldl max` unchanged, for a
nonnegative seed. -/
theorem foldl_max_filter (f fs : SaveRec → Int) (p : SaveRec → Bool) :
    ∀ l : List SaveRec, (∀ x ∈ l, p x = true → f x = fs x) →
      (∀ x ∈ l, p x = false → f x = 0) →
      ∀ a : Int, 0 ≤ a →
      (l.map f).foldl max a = ((l.filter p).map fs).foldl max a := by
  intro l
  induction l with
  | nil => intro _ _ a _; rfl
  | cons x l ih =>
    intro h1 h2 a ha
    rw [List.map_cons, List.foldl_cons, List.filter_cons]
    cases hp : p x with
    | true =>
      rw [if_pos rfl, List.map_cons, List.foldl_cons,
        h1 x (List.mem_cons_self x l) hp]
      exact ih (fun y hy => h1 y (List.mem_cons_of_mem x hy))
        (fun y hy => h2 y (List.mem_cons_of_mem x hy))
        (max a (fs x)) (le_trans ha (le_max_left a (fs x)))
    | false =>
      rw [if_neg (by decide : ¬ ((false : Bool) = true)),
        h2 x (List.mem_cons_self x l) hp, max_eq_left ha]
      exact ih (fun y hy => h1 y (List.mem_cons_of_mem x hy))
        (fun y hy => h2 y (List.mem_cons_of_mem x hy)) a ha

/-- Under the normal slot range (no `quick = 0`) and integer-numeral suffixes,
the source's default-name scan agrees with the spec's wording. -/
theorem defaultMax_eq_spec {g : String} {store : List SaveRec}
    (hq0 : ∀ r ∈ store, r.meta.quick ≠ some 0)
    (hdig : ∀ r ∈ store, r.game = g → r.meta.quick = none →
      strStartsWith r.meta.name "Save " = true →
      ((r.meta.name.drop 5).toList.all Char.isDigit) = true) :
    defaultMax g store = specDefaultMax g store := by
  have h1 : ∀ x ∈ store.filter (fun r => decide (r.game = g)),
      (fun r => r.meta.quick.isNone) x = true → nameContribution x = specNameValue x := by
    intro x hx hnone
    obtain ⟨hxs, hxg'⟩ := List.mem_filter.mp hx
    have hxg : x.game = g := of_decide_eq_true hxg'
    have hnone' : x.meta.quick.isNone = true := hnone
    have hqn : x.meta.quick = none := Option.isNone_iff_eq_none.mp hnone'
    rw [nameContribution, specNameValue, hqn]
    cases hsw : strStartsWith x.meta.name "Save " with
    | false => simp [quickTruthy, hsw]
    | true =>
      have hd := hdig x hxs hxg hqn hsw
      rw [jsNumber_all_digits hd]
      simp [quickTruthy, hsw]
  have h2 : ∀ x ∈ store.filter (fun r => decide (r.game = g)),
      (fun r => r.meta.quick.isNone) x = false → nameContribution x = 0 := by
    intro x hx hsome
    obtain ⟨hxs, _⟩ := List.mem_filter.mp hx
    have hsome' : x.meta.quick.isNone = false := hsome
    cases hq : x.meta.quick with
    | none => rw [hq] at hsome'; simp at hsome'
    | some v =>
      have hv : v ≠ 0 := by
        intro h0
        exact hq0 x hxs (by rw [hq, h0])
      rw [nameContribution, hq]
      simp [quickTruthy, hv]
  rw [defaultMax, dbList,
    foldl_max_perm ((sortDescTs_perm
      (store.filter (fun r => decide (r.game = g)))).map nameContribution) 0,
    foldl_max_filter nameContribution specNameValue (fun r => r.meta.quick.isNone)
      (store.filter (fun r => decide (r.game = g))) h1 h2 0 le_rfl, specDefaultMax]
  have hfe : ((store.filter (fun r => decide (r.game = g))).filter
        (fun r => r.meta.quick.isNone)) =
      store.filter (fun r => decide (r.game = g) && r.meta.quick.isNone) := by
    rw [List.filter_filter]
    exact List.filter_congr (fun a _ => Bool.and_comm _ _)
  rw [hfe]

/-! ## Import lemmas -/

theorem mem_foldl_dbPut (rs : List SaveRec) (st : List SaveRec) (x : SaveRec)
    (hnd : rs.Pairwise (fun a b => a.id ≠ b.id)) :
    x ∈ rs.foldl (fun acc r => dbPut r acc) st ↔
      (x ∈ st ∧ ∀ r ∈ rs, x.id ≠ r.id) ∨ x ∈ rs := by
  induction rs generalizing st with
  | nil => simp
  | cons r rs ih =>
    obtain ⟨hr, htl⟩ := List.pairwise_cons.mp hnd
    rw [List.foldl_cons, ih _ htl, mem_dbPut]
    constructor
    · rintro (⟨⟨hst, hid⟩ | heq, hall⟩ | hmem)
      · refine Or.inl ⟨hst, ?_⟩
        intro r' hr'
        rcases List.mem_cons.mp hr' with rfl | hr'
        · exact hid
        · exact hall r' hr'
      · exact Or.inr (heq ▸ List.mem_cons_self r rs)
      · exact Or.inr (List.mem_cons_of_mem r hmem)
    · rintro (⟨hst, hall⟩ | hmem)
      · exact Or.inl ⟨Or.inl ⟨hst, hall r (List.mem_cons_self r rs)⟩,
          fun r' hr' => hall r' (List.mem_cons_of_mem r hr')⟩
      · rcases List.mem_cons.mp hmem with rfl | hmem
        · exact Or.inl ⟨Or.inr rfl, hr⟩
        · exact Or.inr hmem

/-! ## Codec evaluation lemmas -/

theorem dec_plain {α : Type} (jl : JsonLib α) (lz : Option LZLib) (st : String) :
    dec jl lz { state := st, enc := STATE_PLAIN } =
      match jl.parse st with
      | none => Except.error { message := corruptMsg, cause := DecCause.jsonFailure }
      | some v => Except.ok v := rfl

theorem dec_lz_none {α : Type} (jl : JsonLib α) (st : String) :
    dec jl none { state := st, enc := STATE_LZ } =
      Except.error { message := corruptMsg, cause := DecCause.lzUnavailable } := rfl

theorem dec_lz_some {α : Type} (jl : JsonLib α) (l : LZLib) (st : String) :
    dec jl (some l) { state := st, enc := STATE_LZ } =
      match jl.parse (l.decompressFromBase64 st) with
      | none => Except.error { message := corruptMsg, cause := DecCause.jsonFailure }
      | some v => Except.ok v := rfl

/-! ## Claim theorems -/

/-- Claim C1: for every sequence of `quickSave()` calls for one title starting
from a state with no quick records, after each call no two quick records of
that title hold the same `quickSlot` value, and the number of quick records of
that title never exceeds `QUICK_SLOT_COUNT` (5). -/
theorem claim1_quick_invariant (g : String) (envs : List SaveEnv)
    (store : List SaveRec) (hg : ∀ e ∈ envs, e.game = g)
    (h0 : gQuick g store = []) :
    ∀ k : Nat, QuickInv g (runQuick (envs.take k) store) := by
  intro k
  refine runQuick_inv (fun e he => hg e (List.take_subset k envs he)) ?_
  rw [QuickInv, h0]
  exact ⟨List.Pairwise.nil, by simp⟩

/-- Witness for C1: two quick saves from an empty store keep the invariant. -/
theorem claim1_quick_invariant_witness :
    (∀ e ∈ [envAt 1, envAt 2], e.game = "g") ∧ gQuick "g" [] = [] ∧
      QuickInv "g" (runQuick ([envAt 1, envAt 2].take 2) []) :=
  ⟨by decide, rfl,
    claim1_quick_invariant "g" [envAt 1, envAt 2] [] (by decide) rfl 2⟩

/-- Claim C4: with fewer quick records than `QUICK_SLOT_COUNT`, `quickSave()`
assigns the lowest-numbered slot in `[1, 5]` not in use by any quick record of
the title, and starting from zero quick records five consecutive calls assign
slots 1, 2, 3, 4, 5 in that order. -/
theorem claim4_lowest_free_slot (g : String) (env : SaveEnv)
    (store : List SaveRec) (hg : env.game = g)
    (h5 : (gQuick g store).length < QUICK_SLOTS) :
    (1 ≤ chosenSlot g store ∧ chosenSlot g store ≤ 5) ∧
    (∀ r ∈ store, r.game = g → r.meta.quick ≠ some (chosenSlot g store)) ∧
    (∀ j : Int, 1 ≤ j → j < chosenSlot g store →
      ∃ r, r ∈ store ∧ r.game = g ∧ r.meta.quick = some j) ∧
    (∃ r ∈ quickStep env store, r.id = env.newId ∧
      r.meta.quick = some (chosenSlot g store)) ∧
    (chosenSlot "g" (storeAfter 0) = 1 ∧ chosenSlot "g" (storeAfter 1) = 2 ∧
     chosenSlot "g" (storeAfter 2) = 3 ∧ chosenSlot "g" (storeAfter 3) = 4 ∧
     chosenSlot "g" (storeAfter 4) = 5) := by
  subst hg
  obtain ⟨h1, h2, h3⟩ := chosenSlot_free h5
  refine ⟨h1, h2, h3, ?_, by decide⟩
  refine ⟨createRec env
    ("Slot " ++ toString (chosenSlot env.game store) ++ "/" ++ toString QUICK_SLOTS)
    (some (chosenSlot env.game store))
    (delSlot (chosenSlot env.game store) (qSavesOf env.game store) store), ?_, rfl, rfl⟩
  rw [quickStep_eq]
  exact mem_dbPut.mpr (Or.inr rfl)

/-- Witness for C4: with slots 1, 2 and 4 occupied the call fills slot 3. -/
theorem claim4_lowest_free_slot_witness :
    (envAt 99).game = "g" ∧ (gQuick "g" c4Store).length < QUICK_SLOTS ∧
    ((1 ≤ chosenSlot "g" c4Store ∧ chosenSlot "g" c4Store ≤ 5) ∧
     (∀ r ∈ c4Store, r.game = "g" → r.meta.quick ≠ some (chosenSlot "g" c4Store)) ∧
     (∀ j : Int, 1 ≤ j → j < chosenSlot "g" c4Store →
       ∃ r, r ∈ c4Store ∧ r.game = "g" ∧ r.meta.quick = some j) ∧
     (∃ r ∈ quickStep (envAt 99) c4Store, r.id = (envAt 99).newId ∧
       r.meta.quick = some (chosenSlot "g" c4Store)) ∧
     (chosenSlot "g" (storeAfter 0) = 1 ∧ chosenSlot "g" (storeAfter 1) = 2 ∧
      chosenSlot "g" (storeAfter 2) = 3 ∧ chosenSlot "g" (storeAfter 3) = 4 ∧
      chosenSlot "g" (storeAfter 4) = 5)) :=
  ⟨rfl, by decide, claim4_lowest_free_slot "g" (envAt 99) c4Store rfl (by decide)⟩

/-- Claim C5: with at least `QUICK_SLOT_COUNT` quick records, `quickSave()`
selects the slot of the quick record with the smallest timestamp (ties broken
by encounter order in the ascending sort), deletes every record of the title
currently holding that slot, and creates the new quick record in it. -/
theorem claim5_evicts_oldest (g : String) (env : SaveEnv) (store : List SaveRec)
    (hg : env.game = g) (h5 : QUICK_SLOTS ≤ (gQuick g store).length)
    (hfresh : ∀ r ∈ store, r.id ≠ env.newId) :
    (∃ m, firstMin ((dbList g store).filter (fun r => r.meta.quick.isSome)) = some m ∧
       m.meta.quick = some (chosenSlot g store) ∧
       (∀ r ∈ store, r.game = g → r.meta.quick.isSome = true → m.meta.ts ≤ r.meta.ts) ∧
       (∃ l1 l2, (dbList g store).filter (fun r => r.meta.quick.isSome) = l1 ++ m :: l2 ∧
         ∀ r ∈ l1, m.meta.ts < r.meta.ts)) ∧
    (∀ r ∈ store, r.game = g → r.meta.quick = some (chosenSlot g store) →
       r ∉ quickStep env store) ∧
    (∃ r ∈ quickStep env store, r.id = env.newId ∧
      r.meta.quick = some (chosenSlot g store)) := by
  subst hg
  obtain ⟨r0, hhd, hr0q⟩ := chosenSlot_full h5
  have hfm : firstMin ((dbList env.game store).filter (fun r => r.meta.quick.isSome)) =
      some r0 := by
    rw [← head?_sortAscTs]
    exact hhd
  refine ⟨⟨r0, hfm, hr0q, ?_, firstMin_first hfm⟩, ?_, ?_⟩
  · intro r hr hrg hrq
    exact firstMin_min _ _ hfm r (mem_qBase.mpr ⟨hr, hrg, hrq⟩)
  · intro r hr hrg hrq hmem
    rw [quickStep_eq] at hmem
    rcases mem_dbPut.mp hmem with ⟨hin, _⟩ | heq
    · exact delSlot_clears hin hrg hrq
    · have : r.id = env.newId := by rw [heq]; rfl
      exact hfresh r hr this
  · refine ⟨createRec env
      ("Slot " ++ toString (chosenSlot env.game store) ++ "/" ++ toString QUICK_SLOTS)
      (some (chosenSlot env.game store))
      (delSlot (chosenSlot env.game store) (qSavesOf env.game store) store), ?_, rfl, rfl⟩
    rw [quickStep_eq]
    exact mem_dbPut.mpr (Or.inr rfl)

/-- Claim C2: for every serializable state and each fixed value of the
compression flag (and backend availability), decoding the result of encoding
returns the state, given the collaborators' round-trip contracts. -/
theorem claim2_codec_roundtrip {α : Type} (jl : JsonLib α) (lz : Option LZLib)
    (compression : Bool) (x : α)
    (hjson : jl.parse (jl.stringify x) = some x)
    (hlz : ∀ l, lz = some l → ∀ s, l.decompressFromBase64 (l.compressToBase64 s) = s) :
    dec jl lz (enc jl lz compression x) = Except.ok x := by
  cases lz with
  | none =>
    have henc : enc jl none compression x =
        { state := jl.stringify x, enc := STATE_PLAIN } := by
      cases compression <;> rfl
    rw [henc, dec_plain, hjson]
  | some l =>
    cases compression with
    | false =>
      rw [show enc jl (some l) false x =
          { state := jl.stringify x, enc := STATE_PLAIN } from rfl, dec_plain, hjson]
    | true =>
      rw [show enc jl (some l) true x =
          { state := l.compressToBase64 (jl.stringify x), enc := STATE_LZ } from rfl,
        dec_lz_some, hlz l rfl, hjson]

/-- Witness for C2: a concrete state round-trips with compression on. -/
theorem claim2_codec_roundtrip_witness :
    natJson.parse (natJson.stringify 42) = some 42 ∧
    (∀ l, some idLZ = some l →
      ∀ s, l.decompressFromBase64 (l.compressToBase64 s) = s) ∧
    dec natJson (some idLZ) (enc natJson (some idLZ) true 42) = Except.ok 42 :=
  ⟨rfl, fun l hl s => by cases hl; rfl,
    claim2_codec_roundtrip natJson (some idLZ) true 42 rfl
      (fun l hl s => by cases hl; rfl)⟩

/-- Counterexample for C3: decoding an `lz`-tagged record without a backend
surfaces an error whose message equals the corrupted-record message — the same
message a corrupt plain record produces — and not the distinct
`LZString unavailable for decompression.` message, so the thrown error is not
distinct from the corrupted-record error. -/
theorem claim3_cex :
    decErrMsg (dec natJson none { state := "garbage", enc := STATE_LZ }) = some corruptMsg ∧
    decErrMsg (dec natJson none { state := "garbage", enc := STATE_PLAIN }) = some corruptMsg ∧
    corruptMsg ≠ lzUnavailableMsg :=
  ⟨rfl, rfl, by decide⟩

/-- Claim C3 (amended): decoding any `lz`-tagged payload with no compression
backend always fails — it never returns a state and never falls back to the
plain path — with the generic decode-failure error, distinguishable from a
corrupted record only by its `cause`, which is the backend-unavailable
error. -/
theorem claim3_lz_unavailable {α : Type} (jl : JsonLib α) (r : EncState)
    (h : r.enc = STATE_LZ) :
    dec jl none r =
      Except.error { message := corruptMsg, cause := DecCause.lzUnavailable } := by
  rcases r with ⟨st, e⟩
  cases h
  exact dec_lz_none jl st

/-- Witness for C3's amended theorem at a concrete record. -/
theorem claim3_lz_unavailable_witness :
    ({ state := "garbage", enc := STATE_LZ } : EncState).enc = STATE_LZ ∧
    dec natJson none { state := "garbage", enc := STATE_LZ } =
      Except.error { message := corruptMsg, cause := DecCause.lzUnavailable } :=
  ⟨rfl, claim3_lz_unavailable natJson { state := "garbage", enc := STATE_LZ } rfl⟩

/-- Claim C7: a bundle whose first entry carries a format version other than
the engine's fails with the incompatible-version error and leaves the store
unchanged. -/
theorem claim7_version_gate (g : String) (e0 : Entry) (rest : List Entry)
    (store : List SaveRec) (v : Int) (hfmt : e0.fmt = some v) (hv : v ≠ 1) :
    importCS g (.arr (e0 :: rest)) store =
      (Except.error "Incompatible save version", store) := by
  simp only [importCS, List.head?_cons, Option.some_bind, hfmt, Option.getD_some,
    METADATA_FORMAT_VERSION]
  rw [if_neg hv]

/-- Witness for C7: format version 2 against engine version 1. -/
theorem claim7_version_gate_witness :
    (entryAt "x1" (some 5) (some 2)).fmt = some 2 ∧ (2 : Int) ≠ 1 ∧
    importCS "g" (.arr [entryAt "x1" (some 5) (some 2)]) [] =
      (Except.error "Incompatible save version", []) :=
  ⟨rfl, by decide,
    claim7_version_gate "g" (entryAt "x1" (some 5) (some 2)) [] [] 2 rfl (by decide)⟩

/-- Claim C10: a bundle parsing as an empty sequence, or one whose first entry
has no `formatVersion` (or version 0), fails with the incompatible-version
error — not the no-valid-records error — and persists nothing, because the
version is read as 0 before the validity filter runs. -/
theorem claim10_zero_version_gate (g : String) (entries : List Entry)
    (store : List SaveRec)
    (h : entries = [] ∨
      ∃ e0 rest, entries = e0 :: rest ∧ (e0.fmt = none ∨ e0.fmt = some 0)) :
    importCS g (.arr entries) store =
      (Except.error "Incompatible save version", store) := by
  rcases h with rfl | ⟨e0, rest, rfl, hf⟩
  · rfl
  · rcases hf with hf | hf <;>
      · simp only [importCS, List.head?_cons, Option.some_bind, hf,
          Option.getD_none, Option.getD_some]
        rfl

/-- Witness for C10: the empty bundle. -/
theorem claim10_zero_version_gate_witness :
    (([] : List Entry) = [] ∨
      ∃ e0 rest, ([] : List Entry) = e0 :: rest ∧ (e0.fmt = none ∨ e0.fmt = some 0)) ∧
    importCS "g" (.arr []) [] = (Except.error "Incompatible save version", []) :=
  ⟨Or.inl rfl, claim10_zero_version_gate "g" [] [] (Or.inl rfl)⟩

/-- Claim C9: `load(id)` never lets an error escape to its caller: for every
environment — absent records, absent API, failing decode, missing engine
hooks, throwing engine calls — the outcome is either a completed effect or
the user-visible `Load failed:` toast carrying the underlying message. -/
theorem claim9_load_never_uncaught {α : Type} (env : LoadEnv α) (id : String) :
    (∀ m, load env id ≠ LoadOutcome.uncaught m) ∧
    (∀ m, loadBody env id = Except.error m →
      load env id = LoadOutcome.toastMsg ("Load failed: " ++ m)) := by
  constructor
  · intro m
    rw [load]
    cases loadBody env id <;> simp
  · intro m hm
    rw [load, hm]

/-- Claim C8: past the version gate, `import` persists exactly the entries
with a non-empty id, a non-empty payload and a defined timestamp, each
re-homed to the current title; with no surviving entry it fails with the
no-valid-records error and persists nothing. -/
theorem claim8_import_filter (g : String) (e0 : Entry) (rest : List Entry)
    (store : List SaveRec) (hfmt : e0.fmt = some 1)
    (hids : ((e0 :: rest).filter validEntry).Pairwise (fun a b => a.id ≠ b.id)) :
    ((e0 :: rest).filter validEntry = [] →
      importCS g (.arr (e0 :: rest)) store =
        (Except.error "No valid saves found in file.", store)) ∧
    ((e0 :: rest).filter validEntry ≠ [] →
      (importCS g (.arr (e0 :: rest)) store).1 = Except.ok () ∧
      (∀ x : SaveRec, x ∈ (importCS g (.arr (e0 :: rest)) store).2 ↔
        (x ∈ store ∧ ∀ e ∈ (e0 :: rest).filter validEntry, x.id ≠ e.id) ∨
        (∃ e ∈ (e0 :: rest).filter validEntry, x = entryToRec g e))) ∧
    (∀ e : Entry, (entryToRec g e).game = g) := by
  have himp : importCS g (.arr (e0 :: rest)) store =
      (if ((e0 :: rest).filter validEntry).isEmpty then
        (Except.error "No valid saves found in file.", store)
       else (Except.ok (), ((e0 :: rest).filter validEntry).foldl
          (fun st e => dbPut (entryToRec g e) st) store)) := by
    simp only [importCS, List.head?_cons, Option.some_bind, hfmt, Option.getD_some]
    rw [if_pos (show (1 : Int) = METADATA_FORMAT_VERSION from rfl)]
  refine ⟨?_, ?_, fun e => rfl⟩
  · intro hnil
    rw [himp, if_pos (by rw [hnil]; rfl)]
  · intro hne
    have hnem : ¬ ((e0 :: rest).filter validEntry).isEmpty = true := by
      simp only [List.isEmpty_iff]
      exact hne
    rw [himp, if_neg hnem]
    refine ⟨rfl, ?_⟩
    intro x
    have hmapped : (((e0 :: rest).filter validEntry).map (entryToRec g)).Pairwise
        (fun a b => a.id ≠ b.id) := List.pairwise_map.mpr hids
    show x ∈ ((e0 :: rest).filter validEntry).foldl
        (fun st e => dbPut (entryToRec g e) st) store ↔ _
    rw [← List.foldl_map (entryToRec g) (fun acc r => dbPut r acc),
      mem_foldl_dbPut _ _ _ hmapped]
    constructor
    · rintro (⟨hst, hall⟩ | hmem)
      · exact Or.inl ⟨hst, fun e he => hall _ (List.mem_map_of_mem _ he)⟩
      · obtain ⟨e, he, heq⟩ := List.mem_map.mp hmem
        exact Or.inr ⟨e, he, heq.symm⟩
    · rintro (⟨hst, hall⟩ | ⟨e, he, rfl⟩)
      · refine Or.inl ⟨hst, ?_⟩
        intro r hr
        obtain ⟨e, he, rfl⟩ := List.mem_map.mp hr
        exact hall e he
      · exact Or.inr (List.mem_map_of_mem _ he)

/-- Witness for C8: a three-entry bundle whose middle entry lacks its id
persists exactly the other two, re-homed. -/
theorem claim8_import_filter_witness :
    (entryAt "x1" (some 5) (some 1)).fmt = some 1 ∧
    (bundle3.filter validEntry).Pairwise (fun a b => a.id ≠ b.id) ∧
    ((bundle3.filter validEntry = [] →
       importCS "g" (.arr bundle3) [] =
         (Except.error "No valid saves found in file.", [])) ∧
     (bundle3.filter validEntry ≠ [] →
       (importCS "g" (.arr bundle3) []).1 = Except.ok () ∧
       (∀ x : SaveRec, x ∈ (importCS "g" (.arr bundle3) []).2 ↔
         (x ∈ ([] : List SaveRec) ∧ ∀ e ∈ bundle3.filter validEntry, x.id ≠ e.id) ∨
         (∃ e ∈ bundle3.filter validEntry, x = entryToRec "g" e))) ∧
     (∀ e : Entry, (entryToRec "g" e).game = "g")) :=
  ⟨rfl, by decide,
    claim8_import_filter "g" (entryAt "x1" (some 5) (some 1))
      [entryAt "" (some 6) (some 1), entryAt "x3" (some 7) (some 1)] [] rfl (by decide)⟩

/-- Witness for C9: loading a missing id surfaces only the toast. -/
theorem claim9_load_never_uncaught_witness :
    loadBody emptyLoadEnv "x" = Except.error missingMsg ∧
    load emptyLoadEnv "x" = LoadOutcome.toastMsg ("Load failed: " ++ missingMsg) :=
  ⟨rfl, (claim9_load_never_uncaught emptyLoadEnv "x").2 missingMsg rfl⟩

/-- Counterexample for C6: with one existing manual record named `Save 1e2` —
which does not match the exact pattern `Save <integer>`, so the claim predicts
the next blank-named save is `Save 1` — the code computes
`Number("1e2") = 100` and names the new record `Save 101`. -/
theorem claim6_cex :
    (createRec (envAt 2) "" none cexNameStore).meta.name = "Save 101" ∧
    "Save " ++ toString (specDefaultMax "g" cexNameStore + 1) = "Save 1" ∧
    ("Save 101" : String) ≠ "Save 1" :=
  ⟨by decide, by decide, by decide⟩

/-- Claim C6 (amended): for a blank-named `create()`, when every manual record
of the title whose name starts with `"Save "` continues with a plain integer
numeral (and no record holds the out-of-range slot `0`), the new record's name
is `Save N` with `N` one plus the maximum matched integer (`N = 1` when none
match); names with other JavaScript-numeric suffixes, such as `Save 1e2`, also
contribute their `Number()` value, so the exact-pattern reading fails on
them. -/
theorem claim6_default_name (g : String) (env : SaveEnv) (name : String)
    (store : List SaveRec) (hg : env.game = g) (hblank : jsTrim name = "")
    (hq0 : ∀ r ∈ store, r.meta.quick ≠ some 0)
    (hdig : ∀ r ∈ store, r.game = g → r.meta.quick = none →
      strStartsWith r.meta.name "Save " = true →
      ((r.meta.name.drop 5).toList.all Char.isDigit) = true) :
    (createRec env name none store).meta.name =
      "Save " ++ toString (specDefaultMax g store + 1) := by
  subst hg
  show (if jsTrim name = "" then
          "Save " ++ toString (defaultMax env.game store + 1)
        else jsTrim name) = _
  rw [if_pos hblank, defaultMax_eq_spec hq0 hdig]

/-- Witness for C6's amended theorem: with manual saves `Save 1` and `Save 3`,
the next blank-named save is `Save 4`. -/
theorem claim6_default_name_witness :
    jsTrim "" = "" ∧ (∀ r ∈ c6Store, r.meta.quick ≠ some 0) ∧
    (∀ r ∈ c6Store, r.game = "g" → r.meta.quick = none →
      strStartsWith r.meta.name "Save " = true →
      ((r.meta.name.drop 5).toList.all Char.isDigit) = true) ∧
    (createRec (envAt 9) "" none c6Store).meta.name =
      "Save " ++ toString (specDefaultMax "g" c6Store + 1) ∧
    "Save " ++ toString (specDefaultMax "g" c6Store + 1) = "Save 4" :=
  ⟨rfl, by decide, by decide,
    claim6_default_name "g" (envAt 9) "" c6Store rfl rfl (by decide) (by decide),
    by decide⟩

/-- Witness for C5: with slots 1-5 full and slot 2 oldest, the call evicts
slot 2's record and recreates slot 2. -/
theorem claim5_evicts_oldest_witness :
    (envAt 99).game = "g" ∧ QUICK_SLOTS ≤ (gQuick "g" c5Store).length ∧
    (∀ r ∈ c5Store, r.id ≠ (envAt 99).newId) ∧
    ((∃ m, firstMin ((dbList "g" c5Store).filter (fun r => r.meta.quick.isSome)) = some m ∧
       m.meta.quick = some (chosenSlot "g" c5Store) ∧
       (∀ r ∈ c5Store, r.game = "g" → r.meta.quick.isSome = true → m.meta.ts ≤ r.meta.ts) ∧
       (∃ l1 l2, (dbList "g" c5Store).filter (fun r => r.meta.quick.isSome) = l1 ++ m :: l2 ∧
         ∀ r ∈ l1, m.meta.ts < r.meta.ts)) ∧
     (∀ r ∈ c5Store, r.game = "g" → r.meta.quick = some (chosenSlot "g" c5Store) →
       r ∉ quickStep (envAt 99) c5Store) ∧
     (∃ r ∈ quickStep (envAt 99) c5Store, r.id = (envAt 99).newId ∧
       r.meta.quick = some (chosenSlot "g" c5Store))) :=
  ⟨rfl, by decide, by decide,
    claim5_evicts_oldest "g" (envAt 99) c5Store rfl (by decide) (by decide)⟩

end CSSave
